/-
Verification of the metadata-extraction-and-aggregation tool `makemake.go`
(repository tooolbox/antlr4-grammars).

The tool walks the `grammars-v4` tree, parses every `pom.xml` build descriptor
not on a compiled-in ignore list, aggregates the retained projects into a map
keyed by derived package name, derives each project's generated-file list, and
renders a single Makefile from a text template.

Modelling choices:
* Go strings are modelled as `List Char` (`Str`); `strings.HasSuffix` is
  `List.isSuffixOf`, `strings.Join` is `List.intercalate`, `sort.Strings` is
  insertion sort by the lexicographic order `lexLe`.
* The filesystem walk is modelled as a list of `WalkEntry` values, one per
  path visited by `filepath.Walk` in order; each entry carries the `err`
  argument the walk passes to the callback and the result `internal.ParsePom`
  would return if it were invoked on that path.  This lets theorems quantify
  over the contents of files the code never parses.
* `internal.Project` and `internal.ParsePom` live in a package that is not
  part of these sources; they are modelled from the spec (see `Project`).
* Go's map is modelled as an association list with replace-on-insert
  (`mapInsert`); `text/template` ranges over a map in ascending key order,
  modelled by `rangeProjects`.
* `log.Fatalf` terminates the process: it is modelled by the error side of
  `Except` / the `fatal` field of `RunResult`.
-/
import Mathlib

/-- Go strings, modelled as lists of characters. -/
abbrev Str : Type := List Char

/-- Shorthand turning a Lean string literal into the `Str` model. -/
def str (s : String) : Str := s.data

/-- Lexicographic comparison on strings, byte-for-byte as Go's `<=` on
strings (modelled on characters): the order `sort.Strings` sorts by. -/
def lexLe : Str → Str → Bool
  | [], _ => true
  | _ :: _, [] => false
  | a :: as, b :: bs =>
    if a < b then true
    else if b < a then false
    else lexLe as bs

/-- The lexicographic order as a relation. -/
def LexLe (a b : Str) : Prop := lexLe a b = true

instance : DecidableRel LexLe := fun a b => inferInstanceAs (Decidable (lexLe a b = true))

theorem lexLe_cons_iff {a b : Char} {as bs : Str} :
    lexLe (a :: as) (b :: bs) = true ↔ a < b ∨ (a = b ∧ lexLe as bs = true) := by
  by_cases hab : a < b
  · simp [lexLe, hab]
  · by_cases hba : b < a
    · have : a ≠ b := fun h => absurd (h ▸ hba) (lt_irrefl a)
      simp [lexLe, hab, hba, this]
    · have : a = b := le_antisymm (not_lt.mp hba) (not_lt.mp hab)
      simp [lexLe, hab, hba, this]

theorem lexLe_refl (s : Str) : lexLe s s = true := by
  induction s with
  | nil => rfl
  | cons a as ih => exact lexLe_cons_iff.mpr (Or.inr ⟨rfl, ih⟩)

theorem lexLe_total (a b : Str) : lexLe a b = true ∨ lexLe b a = true := by
  induction a generalizing b with
  | nil => exact Or.inl rfl
  | cons x xs ih =>
    cases b with
    | nil => exact Or.inr rfl
    | cons y ys =>
      rcases lt_trichotomy x y with h | h | h
      · exact Or.inl (lexLe_cons_iff.mpr (Or.inl h))
      · rcases ih ys with h' | h'
        · exact Or.inl (lexLe_cons_iff.mpr (Or.inr ⟨h, h'⟩))
        · exact Or.inr (lexLe_cons_iff.mpr (Or.inr ⟨h.symm, h'⟩))
      · exact Or.inr (lexLe_cons_iff.mpr (Or.inl h))

theorem lexLe_antisymm : ∀ {a b : Str}, lexLe a b = true → lexLe b a = true → a = b
  | [], [], _, _ => rfl
  | [], _ :: _, _, h => by cases h
  | _ :: _, [], h, _ => by cases h
  | a :: as, b :: bs, h1, h2 => by
    rcases lexLe_cons_iff.mp h1 with h | ⟨he, h⟩
    · rcases lexLe_cons_iff.mp h2 with h' | ⟨he', _⟩
      · exact absurd h (lt_asymm h')
      · exact absurd (he' ▸ h) (lt_irrefl a)
    · rcases lexLe_cons_iff.mp h2 with h' | ⟨_, h'⟩
      · exact absurd (he ▸ h') (lt_irrefl b)
      · exact he ▸ congrArg (a :: ·) (lexLe_antisymm h h')

theorem lexLe_trans : ∀ {a b c : Str},
    lexLe a b = true → lexLe b c = true → lexLe a c = true
  | [], _, _, _, _ => rfl
  | _ :: _, [], _, h, _ => by cases h
  | _ :: _, _ :: _, [], _, h => by cases h
  | a :: as, b :: bs, c :: cs, h1, h2 => by
    rcases lexLe_cons_iff.mp h1 with h | ⟨he, h⟩ <;>
      rcases lexLe_cons_iff.mp h2 with h' | ⟨he', h'⟩
    · exact lexLe_cons_iff.mpr (Or.inl (lt_trans h h'))
    · exact lexLe_cons_iff.mpr (Or.inl (he' ▸ h))
    · exact lexLe_cons_iff.mpr (Or.inl (he ▸ h'))
    · exact lexLe_cons_iff.mpr (Or.inr ⟨he.trans he', lexLe_trans h h'⟩)

instance : IsTotal Str LexLe := ⟨lexLe_total⟩

instance : IsTrans Str LexLe := ⟨fun _ _ _ => lexLe_trans⟩

instance : IsAntisymm Str LexLe := ⟨fun _ _ => lexLe_antisymm⟩

instance : IsRefl Str LexLe := ⟨lexLe_refl⟩

/-- Model of Go's `sort.Strings`: sort ascending by the lexicographic order. -/
def sortStrings (l : List Str) : List Str := List.insertionSort LexLe l

theorem sortStrings_sorted (l : List Str) : List.Sorted LexLe (sortStrings l) :=
  List.sorted_insertionSort LexLe l

theorem sortStrings_perm (l : List Str) : (sortStrings l).Perm l :=
  List.perm_insertionSort LexLe l

/-- Two permuted key lists sort to the same list: the content of `sort.Strings`
that makes the pipeline independent of Go's map iteration order. -/
theorem sortStrings_eq_of_perm {l₁ l₂ : List Str} (h : l₁.Perm l₂) :
    sortStrings l₁ = sortStrings l₂ :=
  List.eq_of_perm_of_sorted ((sortStrings_perm l₁).trans (h.trans (sortStrings_perm l₂).symm))
    (sortStrings_sorted l₁) (sortStrings_sorted l₂)

/-! ## Data model

`internal.Project` is produced by `internal.ParsePom`, whose source lives in
the `bramp.net/antlr4-grammars/internal` package, outside these sources. -/

/-- Modelled from the spec: `internal.Project`, the result of the Descriptor
Parser (spec section 4.1), which is not among the repository files here.  A
populated project carries the fields `main` reads: `Includes` (the grammar
source files the descriptor declares), `FoundAntlr4MavenPlugin`
(`generationEnabled`: whether the antlr4 Maven plugin is configured),
`FilePrefix` (names the generated test file), and the outputs of its two
derived-name methods, carried as fields because they are deterministic
functions of the parsed descriptor (spec sections 3 and 4.2): `PackageName`
(the derived package name, `p.PackageName()`) and `GeneratedFilenames`
(the derived generated-file names, `p.GeneratedFilenames()`). -/
structure Project where
  PackageName : Str
  Includes : List Str
  FoundAntlr4MavenPlugin : Bool
  FilePrefix : Str
  GeneratedFilenames : List Str
deriving DecidableEq

/-- What `internal.ParsePom(path)` returns: a project, or an error for a
malformed descriptor. -/
inductive PomResult where
  | ok (p : Project)
  | err (msg : Str)
deriving DecidableEq

/-- One path visited by `filepath.Walk`, together with the `err` argument the
walk passes to the callback for it and the result `internal.ParsePom` would
return if it were invoked on the path.  Carrying the parse result for every
path (even ones the code never parses) lets theorems state that ignored or
non-descriptor paths are never parsed: the outcome is the same for every
value of `pom`. -/
structure WalkEntry where
  path : Str
  fsErr : Option Str
  pom : PomResult
deriving DecidableEq

/-- The callback's accumulated state: the `projects` map and the messages
logged with `log.Printf`. -/
structure WalkState where
  projects : List (Str × Project)
  logs : List Str
deriving DecidableEq

/-- Go map assignment `m[k] = v` on the association-list model: replace the
binding of `k` in place, or append a fresh binding. -/
def mapInsert {β : Type} (k : Str) (v : β) : List (Str × β) → List (Str × β)
  | [] => [(k, v)]
  | kv :: rest => if kv.1 = k then (k, v) :: rest else kv :: mapInsert k v rest

/-! ## The walk (`main`, first half of `makemake.go`) -/

/-- `const GRAMMARS_ROOT = "grammars-v4"`. -/
def GRAMMARS_ROOT : Str := str "grammars-v4"

/-- `var IGNORE = []string{"objc", "swift-fin"}`: projects excluded before
parsing. -/
def IGNORE : List Str := [str "objc", str "swift-fin"]

/-- `onIgnoreList` returns true if the pom file in the path is on the banned
list (`strings.HasSuffix(path, "/"+ignore+"/pom.xml")` for some entry). -/
def onIgnoreList (path : Str) : Bool :=
  IGNORE.any (fun ignore => List.isSuffixOf (str "/" ++ ignore ++ str "/pom.xml") path)

/-- The message of `log.Printf("skipping %q as it contains no grammars", path)`
(the `%q` quoting of special characters inside `path` is elided). -/
def skipNoGrammarsMsg (path : Str) : Str :=
  str "skipping " ++ [Char.ofNat 34] ++ path ++ [Char.ofNat 34] ++ str " as it contains no grammars"

/-- The body of the `filepath.Walk` callback in `main` for one visited path:

* a walk error (`err != nil`) is returned, aborting the walk;
* only paths ending in `/pom.xml` are considered;
* paths on the ignore list are skipped without parsing;
* a parse error is returned, aborting the walk;
* descriptors without the Antlr plugin are skipped silently;
* descriptors with no includes are logged and skipped;
* otherwise the project is stored under `p.PackageName()`. -/
def walkStep (st : WalkState) (e : WalkEntry) : Except Str WalkState :=
  match e.fsErr with
  | some msg => .error msg
  | none =>
    if List.isSuffixOf (str "/pom.xml") e.path then
      if onIgnoreList e.path then .ok st
      else
        match e.pom with
        | .err msg => .error msg
        | .ok p =>
          if !p.FoundAntlr4MavenPlugin then .ok st
          else if p.Includes.isEmpty then
            .ok { st with logs := st.logs ++ [skipNoGrammarsMsg e.path] }
          else
            .ok { st with projects := mapInsert p.PackageName p st.projects }
    else .ok st

/-- `filepath.Walk`'s sequencing of the callback over the visited paths:
entries are processed in order and the first non-nil callback result stops
the walk and is returned. -/
def walkFrom (st : WalkState) : List WalkEntry → Except Str WalkState
  | [] => .ok st
  | e :: es =>
    match walkStep st e with
    | .error msg => .error msg
    | .ok st' => walkFrom st' es

/-- The whole walk of `main`, starting from the empty `projects` map. -/
def walkPoms (entries : List WalkEntry) : Except Str WalkState :=
  walkFrom ⟨[], []⟩ entries

/-! ## Generated files and the fatal minimum-two check (`main`, middle part) -/

/-- Go `%q` of a string: surrounding double quotes (escaping of special
characters inside the value is elided). -/
def goQuote (s : Str) : Str := str "\"" ++ s ++ str "\""

/-- Go `%q` of a string slice: `["a" "b"]`. -/
def goQuoteList (l : List Str) : Str :=
  str "[" ++ List.intercalate (str " ") (l.map goQuote) ++ str "]"

/-- The full paths of one project's generated files: each derived filename
prefixed with the project name and `/` (the inner loop of `main`). -/
def generatedFor (name : Str) (p : Project) : List Str :=
  p.GeneratedFilenames.map (fun file => name ++ str "/" ++ file)

/-- The message of
`log.Fatalf("Expect atleast two generated files, only got: %q for %q", generated, name)`. -/
def expectTwoMsg (generated : List Str) (name : Str) : Str :=
  str "Expect atleast two generated files, only got: " ++ goQuoteList generated
    ++ str " for " ++ goQuote name

/-- The loop of `main` that builds `generatedFiles` from the `projects` map:
for each project the generated full paths are recorded, and fewer than two of
them is fatal (`log.Fatalf` ends the process, so recording the offending
entry first, as the Go code does, is unobservable: the error side carries the
message).  The list argument stands for one iteration order of the Go map. -/
def buildGenFrom (acc : List (Str × List Str)) :
    List (Str × Project) → Except Str (List (Str × List Str))
  | [] => .ok acc
  | kv :: rest =>
    let generated := generatedFor kv.1 kv.2
    if generated.length < 2 then .error (expectTwoMsg generated kv.1)
    else buildGenFrom (acc ++ [(kv.1, generated)]) rest

/-- `generatedFiles` built from the whole `projects` map. -/
def buildGeneratedFiles (projects : List (Str × Project)) :
    Except Str (List (Str × List Str)) :=
  buildGenFrom [] projects

/-! ## The template and the renderer (`main`, last part)

The `MAKEFILE` template text is split at its substitution points; the
substitutions and the `range` blocks are implemented below following
`text/template` semantics (a `range` over a map visits keys in ascending
order; `index` of a missing key yields the zero value; `{{- ...}}` trim
markers collapse the whitespace around a directive). -/

/-- The `MAKEFILE` template text before `{{ Join .Grammars " " }}`. -/
def MAKEFILE_HEAD : Str := str "# Copyright 2017 Google Inc.\n#\n# Licensed under the Apache License, Version 2.0 (the \"License\");\n# you may not use this file except in compliance with the License.\n# You may obtain a copy of the License at\n#\n#     https://www.apache.org/licenses/LICENSE-2.0\n#\n# Unless required by applicable law or agreed to in writing, software\n# distributed under the License is distributed on an \"AS IS\" BASIS,\n# WITHOUT WARRANTIES OR CONDITIONS OF ANY KIND, either express or implied.\n# See the License for the specific language governing permissions and\n# limitations under the License.\n\n#\n# Do not edit this file, it is generated by makemake.go\n#\nMAKEFLAGS += --no-builtin-rules\n\n.PHONY: all antlr clean rebuild test\n.SILENT:\n.DELETE_ON_ERROR:\n.SUFFIXES:\n\nANTLR_BIN := $(PWD)/.bin/antlr-4.7-complete.jar\nANTLR_URL := http://www.antlr.org/download/antlr-4.7-complete.jar\nANTLR_ARGS := -Dlanguage=Go -visitor\n\nGRAMMARS := "

/-- The `MAKEFILE` template text between the `GRAMMARS` substitution and the
per-project part of the `test:` line. -/
def MAKEFILE_MID : Str := str "\n\nLANG_COLOR = \\033[0;36m\nNO_COLOR   = \\033[m\n\n# This is the default target\nrebuild: antlr test\n\nall:\n\tgo run makemake.go\n\tmake clean\n\tmake -k -j2 rebuild 2> /dev/null\n\nclean:\n\t@rm -r $(GRAMMARS) 2> /dev/null || true\n\nantlr: $(ANTLR_BIN)\n$(ANTLR_BIN):\n\tmkdir -p .bin\n\tcurl -o $@ $(ANTLR_URL)\n\ntest: "

/-- The `MAKEFILE` template text after the per-project `range` block: the
shared `%_lexer.go %_parser.go:` and `%_test.go:` pattern rules. -/
def MAKEFILE_TAIL : Str := str "\n\n%_lexer.go %_parser.go:\n\tlang=$$(dirname $@); \\\n\terrors=$$lang/$$(basename $*).errors; \\\n\tmkdir -p $$lang; \\\n\tpushd $$(dirname $<) > /dev/null; \\\n\tjava -jar $(ANTLR_BIN) $(ANTLR_ARGS) -package $$lang $(notdir $^) -o ../../$$lang > ../../$$errors 2>&1; \\\n\tRET=$$?; \\\n\tpopd > /dev/null; \\\n\tif [ $$RET -ne 0 ]; then \\\n\t\tprintf \"| %s  | $(LANG_COLOR)%-15s$(NO_COLOR) | %-75s |\\n\" \"\u274c\" \"$$lang\" \"antlr: $$(tail -n 1 $$errors)\"; \\\n\t\trm $$lang/*.go > /dev/null 2>&1 || true; \\\n\t\texit $$RET; \\\n\tfi; \\\n\tshopt -s nullglob; \\\n\tgo build $*_*.go $*parser_*.go >> $$errors 2>&1; \\\n\tRET=$$?; \\\n\tif [ $$RET -ne 0 ]; then \\\n\t\tprintf \"| %s  | $(LANG_COLOR)%-15s$(NO_COLOR) | %-75s |\\n\" \"\u274c\" \"$$lang\" \"build: $$(tail -n 1 $$errors)\"; \\\n\t\texit $$RET; \\\n\tfi;\n\n%_test.go:\n\tlang=$$(dirname $@); \\\n\terrors=$$lang/$$(basename $*).errors; \\\n\tgo run maketest.go $$lang >> $$errors 2>&1; \\\n\tRET=$$?; \\\n\tif [ $$RET -ne 0 ]; then \\\n\t\tprintf \"| %s  | $(LANG_COLOR)%-15s$(NO_COLOR) | %-75s |\\n\" \"\u274c\" \"$$lang\" \"maketest: $$(tail -n 1 $$errors)\"; \\\n\t\texit $$RET; \\\n\tfi; \\\n\tgo test -timeout 10s ./$$lang >> $$errors 2>&1; \\\n\tRET=$$?; \\\n\tif [ $$RET -ne 0 ]; then \\\n\t\tprintf \"| %s  | $(LANG_COLOR)%-15s$(NO_COLOR) | %-75s |\\n\" \"\u274c\" \"$$lang\" \" test: $$(tail -n 1 $$errors)\"; \\\n\t\texit $$RET; \\\n\tfi; \\\n\tif [[ -s $$errors ]]; then \\\n\t\trm $$errors; \\\n\t\tprintf \"| %s  | $(LANG_COLOR)%-15s$(NO_COLOR) | %-75s |\\n\" \"\u2705\" \"$$lang\" \"\"; \\\n\telse \\\n\t\tprintf \"| %s  | $(LANG_COLOR)%-15s$(NO_COLOR) | %-75s |\\n\" \"\u26a0\ufe0f\" \"$$lang\" \"$$(tail -n 1 $$errors)\"; \\\n\tfi;\n"

/-- `templateData`, the value the template is executed with. -/
structure templateData where
  Grammars : List Str
  Projects : List (Str × Project)
  GeneratedFiles : List (Str × List Str)
deriving DecidableEq

/-- `strings.Join(l, " ")`, the template's `Join ... " "`. -/
def joinSpace (l : List Str) : Str := List.intercalate (str " ") l

/-- A `range` of `text/template` over the `Projects` map: pairs visited in
ascending key order, each key with its value. -/
def rangeProjects (m : List (Str × Project)) : List (Str × Project) :=
  (sortStrings (m.map Prod.fst)).filterMap
    (fun name => (m.lookup name).map (fun p => (name, p)))

/-- One item of the `test:` line:
`{{ $name }}/{{ $project.FilePrefix }}_test.go ` (with its trailing space). -/
def testTarget (kv : Str × Project) : Str :=
  kv.1 ++ str "/" ++ kv.2.FilePrefix ++ str "_test.go "

/-- One iteration of the per-project `range` block: the `$genfiles` and
`$testfile` assignments, then the `name:`, `genfiles:` and `testfile:`
rules.  `index $.GeneratedFiles $name` of a missing key is the zero value
(the empty list). -/
def projectRules (generatedFiles : List (Str × List Str)) (kv : Str × Project) : Str :=
  let genfiles := joinSpace ((generatedFiles.lookup kv.1).getD [])
  let testfile := kv.1 ++ str "/" ++ kv.2.FilePrefix ++ str "_test.go"
  str "\n\n" ++ kv.1 ++ str ": " ++ testfile ++ str "\n"
    ++ genfiles ++ str ": " ++ joinSpace kv.2.Includes ++ str "\n"
    ++ testfile ++ str ": " ++ genfiles

/-- The text produced by executing the `MAKEFILE` template with `data`.  The
literal `"\n\n"` is the text between the test-line range's `{{ end }}` and
the opening of the per-project `range` block (neither carries a trim
marker). -/
def renderMakefile (data : templateData) : Str :=
  MAKEFILE_HEAD ++ joinSpace data.Grammars ++ MAKEFILE_MID
    ++ ((rangeProjects data.Projects).map testTarget).flatten
    ++ str "\n\n"
    ++ ((rangeProjects data.Projects).map (projectRules data.GeneratedFiles)).flatten
    ++ MAKEFILE_TAIL

/-- The outcome of one `makeTemplate.Execute(out, data)` call.
`text/template` writes to `out` as it executes, so a failed execution has
already written a prefix of the output (`written`) when it reports `msg`. -/
inductive ExecResult where
  | ok (text : Str)
  | fail (written : Str) (msg : Str)
deriving DecidableEq

/-- Execution of the constant `MAKEFILE` template itself: every field and
function it references exists, so it succeeds, writing the full render. -/
def execMakefileTemplate (data : templateData) : ExecResult :=
  .ok (renderMakefile data)

/-- The observable outcome of one process run: the `log.Fatalf` message if
the run aborted, and the content of the destination file `Makefile`
(`none` when `os.Create` was never reached, so no file was created or
truncated). -/
structure RunResult where
  fatal : Option Str
  makefile : Option Str
deriving DecidableEq

/-- Everything `main` does after a successful walk, for one iteration order
`projects` of the Go map and one template-execution behaviour `exec`:
collect and sort the names, build `generatedFiles` (fatal below two files),
then `os.Create("Makefile")` — creating the destination — and execute the
template into it.  A failed execution is fatal
(`log.Fatalf("failed to generate Makefile: %s", err)`) but the destination
file exists and holds whatever was written before the failure. -/
def postWalk (exec : templateData → ExecResult) (projects : List (Str × Project)) : RunResult :=
  let grammars := sortStrings (projects.map Prod.fst)
  match buildGeneratedFiles projects with
  | .error msg => { fatal := some msg, makefile := none }
  | .ok generatedFiles =>
    let data : templateData := ⟨grammars, projects, generatedFiles⟩
    match exec data with
    | .ok text => { fatal := none, makefile := some text }
    | .fail written msg =>
      { fatal := some (str "failed to generate Makefile: " ++ msg), makefile := some written }

/-- The whole of `main`: the walk (fatal on a walk error:
`log.Fatalf("failed to walk: %s", err)`, before any output exists), then the
post-walk phase. -/
def mainRun (exec : templateData → ExecResult) (entries : List WalkEntry) : RunResult :=
  match walkPoms entries with
  | .error e => { fatal := some (str "failed to walk: " ++ e), makefile := none }
  | .ok st => postWalk exec st.projects

/-! ## Association-list lemmas (the Go map model) -/

theorem mapInsert_lookup_self {β : Type} (k : Str) (v : β) (m : List (Str × β)) :
    (mapInsert k v m).lookup k = some v := by
  induction m with
  | nil => simp [mapInsert, List.lookup]
  | cons kv rest ih =>
    by_cases h : kv.1 = k
    · simp [mapInsert, h, List.lookup]
    · have hne : (k == kv.1) = false := by
        simp only [beq_eq_false_iff_ne]; exact fun he => h he.symm
      simp [mapInsert, h, List.lookup, hne, ih]

theorem mapInsert_lookup_ne {β : Type} {k k' : Str} (h : k' ≠ k) (v : β) (m : List (Str × β)) :
    (mapInsert k v m).lookup k' = m.lookup k' := by
  induction m with
  | nil =>
    have : (k' == k) = false := by simpa using h
    simp [mapInsert, List.lookup, this]
  | cons kv rest ih =>
    by_cases he : kv.1 = k
    · have : (k' == k) = false := by simpa using h
      simp [mapInsert, he, List.lookup, this, he ▸ this]
    · by_cases hk : k' = kv.1
      · simp [mapInsert, he, List.lookup, hk]
      · have : (k' == kv.1) = false := by simpa using hk
        simp [mapInsert, he, List.lookup, this, ih]

theorem mapInsert_keys_mem {β : Type} {k x : Str} {v : β} {m : List (Str × β)}
    (h : x ∈ (mapInsert k v m).map Prod.fst) : x = k ∨ x ∈ m.map Prod.fst := by
  induction m with
  | nil => simpa [mapInsert] using h
  | cons kv rest ih =>
    by_cases he : kv.1 = k
    · simp only [mapInsert, he, if_true, List.map_cons, List.mem_cons] at h
      rcases h with h | h
      · exact Or.inl h
      · exact Or.inr (List.mem_cons_of_mem _ h)
    · simp only [mapInsert, he, if_false, List.map_cons, List.mem_cons] at h
      rcases h with h | h
      · exact Or.inr (h ▸ List.mem_cons_self _ _)
      · rcases ih h with h' | h'
        · exact Or.inl h'
        · exact Or.inr (List.mem_cons_of_mem _ h')

theorem mapInsert_keys_nodup {β : Type} (k : Str) (v : β) {m : List (Str × β)}
    (h : (m.map Prod.fst).Nodup) : ((mapInsert k v m).map Prod.fst).Nodup := by
  induction m with
  | nil => simp [mapInsert]
  | cons kv rest ih =>
    simp only [List.map_cons, List.nodup_cons] at h
    by_cases he : kv.1 = k
    · simp only [mapInsert, if_pos he, List.map_cons, List.nodup_cons]
      exact ⟨he ▸ h.1, h.2⟩
    · simp only [mapInsert, if_neg he, List.map_cons, List.nodup_cons]
      refine ⟨fun hmem => ?_, ih h.2⟩
      rcases mapInsert_keys_mem hmem with h' | h'
      · exact he h'
      · exact h.1 h'

theorem lookup_mem {β : Type} {m : List (Str × β)} {k : Str} {v : β}
    (h : m.lookup k = some v) : (k, v) ∈ m := by
  induction m with
  | nil => cases h
  | cons kv rest ih =>
    rw [show kv = (kv.1, kv.2) from rfl, List.lookup_cons] at h
    by_cases he : k = kv.1
    · have : (k == kv.1) = true := by simpa using he
      rw [this] at h
      cases h
      exact he ▸ List.mem_cons_self _ _
    · have : (k == kv.1) = false := by simpa using he
      rw [this] at h
      exact List.mem_cons_of_mem _ (ih h)

theorem lookup_of_nodupKeys_mem {β : Type} {m : List (Str × β)} {k : Str} {v : β}
    (hn : (m.map Prod.fst).Nodup) (h : (k, v) ∈ m) : m.lookup k = some v := by
  induction m with
  | nil => cases h
  | cons kv rest ih =>
    simp only [List.map_cons, List.nodup_cons] at hn
    rcases List.mem_cons.mp h with h | h
    · subst h
      simp [List.lookup]
    · have hne : k ≠ kv.1 := by
        intro he
        exact hn.1 (he ▸ List.mem_map_of_mem Prod.fst h)
      have : (k == kv.1) = false := by simpa using hne
      rw [show kv = (kv.1, kv.2) from rfl, List.lookup_cons, this]
      exact ih hn.2 h

/-- Repeated Go map assignment: fold the bindings of `l` into `init`. -/
def buildMap {β : Type} (init : List (Str × β)) (l : List (Str × β)) : List (Str × β) :=
  l.foldl (fun m kv => mapInsert kv.1 kv.2 m) init

theorem buildMap_nil {β : Type} (init : List (Str × β)) : buildMap init [] = init := rfl

theorem buildMap_cons {β : Type} (init : List (Str × β)) (kv : Str × β) (l : List (Str × β)) :
    buildMap init (kv :: l) = buildMap (mapInsert kv.1 kv.2 init) l := rfl

theorem buildMap_append {β : Type} (init : List (Str × β)) (l l' : List (Str × β)) :
    buildMap init (l ++ l') = buildMap (buildMap init l) l' :=
  List.foldl_append _ _ _ _

theorem buildMap_keys_nodup {β : Type} {init : List (Str × β)} (l : List (Str × β))
    (h : (init.map Prod.fst).Nodup) : ((buildMap init l).map Prod.fst).Nodup := by
  induction l generalizing init with
  | nil => exact h
  | cons kv rest ih => exact ih (mapInsert_keys_nodup kv.1 kv.2 h)

theorem buildMap_lookup_no_key {β : Type} {n : Str} {l : List (Str × β)}
    (h : ∀ kv ∈ l, kv.1 ≠ n) (init : List (Str × β)) :
    (buildMap init l).lookup n = init.lookup n := by
  induction l generalizing init with
  | nil => rfl
  | cons kv rest ih =>
    rw [buildMap_cons, ih (fun kv' h' => h kv' (List.mem_cons_of_mem _ h')),
      mapInsert_lookup_ne (fun he => h kv (List.mem_cons_self _ _) he.symm)]

theorem buildMap_lookup_last {β : Type} {n : Str} {p : β} {l' : List (Str × β)}
    (h : ∀ kv ∈ l', kv.1 ≠ n) (init : List (Str × β)) (l : List (Str × β)) :
    (buildMap init (l ++ (n, p) :: l')).lookup n = some p := by
  rw [show l ++ (n, p) :: l' = (l ++ [(n, p)]) ++ l' by simp, buildMap_append,
    buildMap_lookup_no_key h, buildMap_append, buildMap_cons, buildMap_nil]
  exact mapInsert_lookup_self n p (buildMap init l)

theorem exists_last_key {β : Type} {l : List (Str × β)} {n : Str}
    (h : n ∈ l.map Prod.fst) :
    ∃ a q b, l = a ++ (n, q) :: b ∧ ∀ kv ∈ b, kv.1 ≠ n := by
  induction l using List.reverseRecOn with
  | nil => cases h
  | append_singleton l x ih =>
    by_cases he : x.1 = n
    · obtain ⟨x1, x2⟩ := x
      dsimp at he
      subst he
      exact ⟨l, x2, [], by simp, by simp⟩
    · have hnl : n ∈ l.map Prod.fst := by
        rcases List.mem_map.mp h with ⟨kv, hkv, hk⟩
        rcases List.mem_append.mp hkv with h' | h'
        · exact hk ▸ List.mem_map_of_mem Prod.fst h'
        · rw [List.mem_singleton.mp h'] at hk
          exact absurd hk he
      rcases ih hnl with ⟨a, q, b, hl, hb⟩
      refine ⟨a, q, b ++ [x], by rw [hl]; simp, fun kv hkv => ?_⟩
      rcases List.mem_append.mp hkv with h' | h'
      · exact hb kv h'
      · rw [List.mem_singleton.mp h']; exact he

theorem lookup_eq_head_filter {β : Type} (k : Str) (m : List (Str × β)) :
    m.lookup k = ((m.filter (fun kv => k == kv.1)).head?).map Prod.snd := by
  induction m with
  | nil => rfl
  | cons kv rest ih =>
    rw [show kv = (kv.1, kv.2) from rfl, List.lookup_cons]
    by_cases he : k = kv.1
    · have hb : (k == kv.1) = true := by simpa using he
      simp [hb, List.filter_cons]
    · have hb : (k == kv.1) = false := by simpa using he
      simp [hb, List.filter_cons, ih]

theorem filter_key_length_le_one {β : Type} {m : List (Str × β)}
    (hn : (m.map Prod.fst).Nodup) (k : Str) :
    (m.filter (fun kv => k == kv.1)).length ≤ 1 := by
  induction m with
  | nil => simp
  | cons kv rest ih =>
    simp only [List.map_cons, List.nodup_cons] at hn
    by_cases he : k = kv.1
    · have hb : (k == kv.1) = true := by simpa using he
      have hnil : rest.filter (fun kv' => k == kv'.1) = [] := by
        refine List.filter_eq_nil_iff.mpr (fun kv' hkv' => ?_)
        simp only [beq_iff_eq]
        intro hk
        have : kv'.1 ∈ rest.map Prod.fst := List.mem_map_of_mem Prod.fst hkv'
        rw [← hk, he] at this
        exact hn.1 this
      simp [List.filter_cons, hb, hnil]
    · have hb : (k == kv.1) = false := by simpa using he
      simpa [List.filter_cons, hb] using ih hn.2

/-- Looking a key up in a Go map does not depend on the iteration order in
which the map's bindings are listed (keys being unique). -/
theorem lookup_eq_of_perm {β : Type} {m1 m2 : List (Str × β)} (hp : m1.Perm m2)
    (hn : (m1.map Prod.fst).Nodup) (k : Str) : m1.lookup k = m2.lookup k := by
  rw [lookup_eq_head_filter, lookup_eq_head_filter]
  have hpf := hp.filter (fun kv => k == kv.1)
  cases hf : m1.filter (fun kv => k == kv.1) with
  | nil =>
    rw [hf] at hpf
    rw [hpf.symm.eq_nil]
  | cons x t =>
    have hlen := filter_key_length_le_one hn k
    rw [hf] at hlen hpf
    have ht : t = [] := by
      cases t with
      | nil => rfl
      | cons y u => simp at hlen
    subst ht
    rw [List.perm_singleton.mp hpf.symm]

/-! ## Characterising the walk -/

/-- The binding a walk entry contributes to the `projects` map, if any: the
conditions of `walkStep` under which `projects[p.PackageName()] = p` runs. -/
def retainedKV (e : WalkEntry) : Option (Str × Project) :=
  match e.fsErr with
  | some _ => none
  | none =>
    if List.isSuffixOf (str "/pom.xml") e.path then
      if onIgnoreList e.path then none
      else
        match e.pom with
        | .err _ => none
        | .ok p =>
          if !p.FoundAntlr4MavenPlugin then none
          else if p.Includes.isEmpty then none
          else some (p.PackageName, p)
    else none

/-- Whether a walk entry makes the callback return a non-nil error (a walk
error, or a parse error on a considered descriptor). -/
def entryAborts (e : WalkEntry) : Bool :=
  match e.fsErr with
  | some _ => true
  | none =>
    List.isSuffixOf (str "/pom.xml") e.path && !onIgnoreList e.path &&
      (match e.pom with | .err _ => true | .ok _ => false)

theorem walkStep_cases (st : WalkState) (e : WalkEntry) :
    (entryAborts e = true ∧ ∃ m, walkStep st e = .error m) ∨
    (entryAborts e = false ∧ ∃ st', walkStep st e = .ok st' ∧
      st'.projects = (match retainedKV e with
        | some kv => mapInsert kv.1 kv.2 st.projects
        | none => st.projects)) := by
  cases hfs : e.fsErr with
  | some m => exact Or.inl ⟨by simp [entryAborts, hfs], m, by simp [walkStep, hfs]⟩
  | none =>
    by_cases hsuf : List.isSuffixOf (str "/pom.xml") e.path
    · by_cases hign : onIgnoreList e.path
      · exact Or.inr ⟨by simp [entryAborts, hfs, hign], st,
          by simp [walkStep, hfs, hsuf, hign], by simp [retainedKV, hfs, hsuf, hign]⟩
      · cases hpom : e.pom with
        | err m =>
          exact Or.inl ⟨by simp [entryAborts, hfs, hsuf, hign, hpom],
            m, by simp [walkStep, hfs, hsuf, hign, hpom]⟩
        | ok p =>
          have hab : entryAborts e = false := by simp [entryAborts, hfs, hpom]
          by_cases hplug : p.FoundAntlr4MavenPlugin
          · by_cases hinc : p.Includes.isEmpty
            · exact Or.inr ⟨hab, { st with logs := st.logs ++ [skipNoGrammarsMsg e.path] },
                by simp [walkStep, hfs, hsuf, hign, hpom, hplug, hinc],
                by simp [retainedKV, hfs, hsuf, hign, hpom, hplug, hinc]⟩
            · exact Or.inr ⟨hab, { st with projects := mapInsert p.PackageName p st.projects },
                by simp [walkStep, hfs, hsuf, hign, hpom, hplug, hinc],
                by simp [retainedKV, hfs, hsuf, hign, hpom, hplug, hinc]⟩
          · exact Or.inr ⟨hab, st,
              by simp [walkStep, hfs, hsuf, hign, hpom, hplug],
              by simp [retainedKV, hfs, hsuf, hign, hpom, hplug]⟩
    · exact Or.inr ⟨by simp [entryAborts, hfs, hsuf], st,
        by simp [walkStep, hfs, hsuf], by simp [retainedKV, hfs, hsuf]⟩

/-- A successful walk computes exactly the repeated map assignments of the
retained entries, in walk order. -/
theorem walkFrom_ok_projects {es : List WalkEntry} {st st' : WalkState}
    (h : walkFrom st es = .ok st') :
    st'.projects = buildMap st.projects (es.filterMap retainedKV) := by
  induction es generalizing st with
  | nil =>
    cases h
    rfl
  | cons e es ih =>
    rcases walkStep_cases st e with ⟨_, m, hstep⟩ | ⟨_, st1, hstep, hproj⟩
    · rw [walkFrom, hstep] at h
      cases h
    · rw [walkFrom, hstep] at h
      rw [List.filterMap_cons]
      cases hr : retainedKV e with
      | none =>
        rw [hr] at hproj
        rw [ih h, hproj]
      | some kv =>
        rw [hr] at hproj
        rw [ih h, hproj, buildMap_cons]

/-- A walk with no aborting entry succeeds. -/
theorem walkFrom_ok_of_no_aborts {es : List WalkEntry}
    (h : ∀ e ∈ es, entryAborts e = false) (st : WalkState) :
    ∃ st', walkFrom st es = .ok st' := by
  induction es generalizing st with
  | nil => exact ⟨st, rfl⟩
  | cons e es ih =>
    rcases walkStep_cases st e with ⟨hab, _, _⟩ | ⟨_, st1, hstep, _⟩
    · rw [h e (List.mem_cons_self _ _)] at hab
      cases hab
    · rcases ih (fun e' he' => h e' (List.mem_cons_of_mem _ he')) st1 with ⟨st', h'⟩
      refine ⟨st', ?_⟩
      rw [walkFrom, hstep]
      exact h'

/-- The walk over a concatenation: the second part runs from the state the
first part reaches, and a first-part error is final. -/
theorem walkFrom_append (l1 l2 : List WalkEntry) (st : WalkState) :
    walkFrom st (l1 ++ l2) =
      match walkFrom st l1 with
      | .error m => .error m
      | .ok t => walkFrom t l2 := by
  induction l1 generalizing st with
  | nil => rfl
  | cons e es ih =>
    rw [List.cons_append, walkFrom, walkFrom]
    cases walkStep st e with
    | error m => rfl
    | ok st1 => exact ih st1

/-- Agreement of two walk outcomes on everything the rest of `main` reads:
the fatal message on the error side, the `projects` map on the success side
(the log lines, printed to standard error, are not part of the output). -/
def sameOutcome : Except Str WalkState → Except Str WalkState → Prop
  | .error m1, .error m2 => m1 = m2
  | .ok s1, .ok s2 => s1.projects = s2.projects
  | _, _ => False

theorem walkStep_congr {st1 st2 : WalkState} (h : st1.projects = st2.projects)
    (e : WalkEntry) : sameOutcome (walkStep st1 e) (walkStep st2 e) := by
  cases hfs : e.fsErr with
  | some m => simp [walkStep, hfs, sameOutcome]
  | none =>
    by_cases hsuf : List.isSuffixOf (str "/pom.xml") e.path
    · by_cases hign : onIgnoreList e.path
      · simpa [walkStep, hfs, hsuf, hign, sameOutcome] using h
      · cases hpom : e.pom with
        | err m => simp [walkStep, hfs, hsuf, hign, hpom, sameOutcome]
        | ok p =>
          by_cases hplug : p.FoundAntlr4MavenPlugin
          · by_cases hinc : p.Includes.isEmpty
            · simpa [walkStep, hfs, hsuf, hign, hpom, hplug, hinc, sameOutcome] using h
            · simpa [walkStep, hfs, hsuf, hign, hpom, hplug, hinc, sameOutcome] using
                congrArg (mapInsert p.PackageName p) h
          · simpa [walkStep, hfs, hsuf, hign, hpom, hplug, sameOutcome] using h
    · simpa [walkStep, hfs, hsuf, sameOutcome] using h

theorem walkFrom_congr {st1 st2 : WalkState} (h : st1.projects = st2.projects)
    (es : List WalkEntry) : sameOutcome (walkFrom st1 es) (walkFrom st2 es) := by
  induction es generalizing st1 st2 with
  | nil => exact h
  | cons e es ih =>
    have hc := walkStep_congr h e
    rw [walkFrom, walkFrom]
    cases h1 : walkStep st1 e with
    | error m1 =>
      cases h2 : walkStep st2 e with
      | error m2 =>
        rw [h1, h2] at hc
        exact hc
      | ok s2 =>
        rw [h1, h2] at hc
        cases hc
    | ok s1 =>
      cases h2 : walkStep st2 e with
      | error m2 =>
        rw [h1, h2] at hc
        cases hc
      | ok s2 =>
        rw [h1, h2] at hc
        exact ih hc

/-- The run's outcome depends on the walk only through `sameOutcome`. -/
theorem mainRun_congr {e1 e2 : List WalkEntry} (exec : templateData → ExecResult)
    (h : sameOutcome (walkPoms e1) (walkPoms e2)) : mainRun exec e1 = mainRun exec e2 := by
  rw [mainRun, mainRun]
  cases h1 : walkPoms e1 with
  | error m1 =>
    cases h2 : walkPoms e2 with
    | error m2 =>
      rw [h1, h2] at h
      rw [h]
    | ok s2 =>
      rw [h1, h2] at h
      cases h
  | ok s1 =>
    cases h2 : walkPoms e2 with
    | error m2 =>
      rw [h1, h2] at h
      cases h
    | ok s2 =>
      rw [h1, h2] at h
      have h' : s1.projects = s2.projects := h
      show postWalk exec s1.projects = postWalk exec s2.projects
      rw [h']

/-! ## The generated-files loop -/

theorem buildGenFrom_ok {m : List (Str × Project)}
    (h : ∀ kv ∈ m, ¬(generatedFor kv.1 kv.2).length < 2) (acc : List (Str × List Str)) :
    buildGenFrom acc m = .ok (acc ++ m.map (fun kv => (kv.1, generatedFor kv.1 kv.2))) := by
  induction m generalizing acc with
  | nil => simp [buildGenFrom]
  | cons kv rest ih =>
    rw [buildGenFrom]
    simp only [if_neg (h kv (List.mem_cons_self _ _))]
    rw [ih (fun kv' h' => h kv' (List.mem_cons_of_mem _ h'))]
    simp

theorem buildGenFrom_error_mem {m : List (Str × Project)} {acc : List (Str × List Str)}
    {msg : Str} (h : buildGenFrom acc m = .error msg) :
    ∃ kv ∈ m, (generatedFor kv.1 kv.2).length < 2 := by
  induction m generalizing acc with
  | nil => cases h
  | cons kv rest ih =>
    rw [buildGenFrom] at h
    by_cases hlen : (generatedFor kv.1 kv.2).length < 2
    · exact ⟨kv, List.mem_cons_self _ _, hlen⟩
    · rw [if_neg hlen] at h
      rcases ih h with ⟨kv', hmem, hlen'⟩
      exact ⟨kv', List.mem_cons_of_mem _ hmem, hlen'⟩

theorem buildGenFrom_error_of_mem {m : List (Str × Project)}
    (h : ∃ kv ∈ m, (generatedFor kv.1 kv.2).length < 2) :
    ∃ kv ∈ m, (generatedFor kv.1 kv.2).length < 2 ∧
      ∀ acc, buildGenFrom acc m = .error (expectTwoMsg (generatedFor kv.1 kv.2) kv.1) := by
  induction m with
  | nil =>
    rcases h with ⟨kv, hmem, _⟩
    cases hmem
  | cons kv rest ih =>
    by_cases hlen : (generatedFor kv.1 kv.2).length < 2
    · refine ⟨kv, List.mem_cons_self _ _, hlen, fun acc => ?_⟩
      rw [buildGenFrom]
      simp only [if_pos hlen]
    · rcases h with ⟨kv', hmem, hlen'⟩
      rcases List.mem_cons.mp hmem with he | hmem'
      · exact absurd (he ▸ hlen') hlen
      · rcases ih ⟨kv', hmem', hlen'⟩ with ⟨kv'', hmem'', hlen'', hall⟩
        refine ⟨kv'', List.mem_cons_of_mem _ hmem'', hlen'', fun acc => ?_⟩
        rw [buildGenFrom]
        simp only [if_neg hlen]
        exact hall _

/-- The keys of the aggregated `projects` map are unique: it is a map. -/
theorem walkPoms_keys_nodup {entries : List WalkEntry} {st : WalkState}
    (h : walkPoms entries = .ok st) : (st.projects.map Prod.fst).Nodup := by
  rw [walkFrom_ok_projects h]
  exact buildMap_keys_nodup _ (by simp)

/-! ## Permutation invariance of the post-walk phase -/

theorem rangeProjects_eq_of_perm {m1 m2 : List (Str × Project)} (hp : m1.Perm m2)
    (hn : (m1.map Prod.fst).Nodup) : rangeProjects m1 = rangeProjects m2 := by
  rw [rangeProjects, rangeProjects, sortStrings_eq_of_perm (hp.map Prod.fst)]
  have : (fun name => (m1.lookup name).map (fun p => (name, p)))
      = (fun name => (m2.lookup name).map (fun p => (name, p))) :=
    funext (fun name => by rw [lookup_eq_of_perm hp hn])
  rw [this]

theorem postWalk_makefile_eq_of_perm {m1 m2 : List (Str × Project)}
    (hp : m1.Perm m2) (hn : (m1.map Prod.fst).Nodup) :
    (postWalk execMakefileTemplate m1).makefile
      = (postWalk execMakefileTemplate m2).makefile := by
  have hn2 : (m2.map Prod.fst).Nodup := ((hp.map Prod.fst).nodup_iff).mp hn
  cases hbg : buildGeneratedFiles m1 with
  | error msg =>
    rcases buildGenFrom_error_mem hbg with ⟨kv, hmem, hlen⟩
    rcases buildGenFrom_error_of_mem ⟨kv, hp.mem_iff.mp hmem, hlen⟩ with ⟨_, _, _, hall⟩
    rw [postWalk, postWalk, hbg, buildGeneratedFiles, hall []]
  | ok g1 =>
    have hok : ∀ kv ∈ m1, ¬(generatedFor kv.1 kv.2).length < 2 := by
      intro kv hmem hlen
      rcases buildGenFrom_error_of_mem ⟨kv, hmem, hlen⟩ with ⟨_, _, _, hall⟩
      rw [buildGeneratedFiles, hall []] at hbg
      cases hbg
    have hok2 : ∀ kv ∈ m2, ¬(generatedFor kv.1 kv.2).length < 2 :=
      fun kv hmem => hok kv (hp.mem_iff.mpr hmem)
    have hg1 : g1 = m1.map (fun kv => (kv.1, generatedFor kv.1 kv.2)) := by
      have := buildGenFrom_ok hok ([] : List (Str × List Str))
      rw [buildGeneratedFiles, this] at hbg
      cases hbg
      simp
    have hbg2 : buildGeneratedFiles m2
        = .ok (m2.map (fun kv => (kv.1, generatedFor kv.1 kv.2))) := by
      rw [buildGeneratedFiles, buildGenFrom_ok hok2]
      simp
    rw [postWalk, postWalk, hbg, hbg2]
    simp only [execMakefileTemplate]
    have hgkeys : ((m1.map (fun kv => (kv.1, generatedFor kv.1 kv.2))).map Prod.fst).Nodup := by
      rw [List.map_map]
      exact hn
    have hgperm : (m1.map (fun kv => (kv.1, generatedFor kv.1 kv.2))).Perm
        (m2.map (fun kv => (kv.1, generatedFor kv.1 kv.2))) := hp.map _
    have hrules : projectRules (m1.map (fun kv => (kv.1, generatedFor kv.1 kv.2)))
        = projectRules (m2.map (fun kv => (kv.1, generatedFor kv.1 kv.2))) := by
      funext kv
      rw [projectRules, projectRules, lookup_eq_of_perm hgperm hgkeys]
    rw [renderMakefile, renderMakefile]
    simp only [hg1]
    rw [sortStrings_eq_of_perm (hp.map Prod.fst), rangeProjects_eq_of_perm hp hn, hrules]

instance {ε α : Type} [DecidableEq ε] [DecidableEq α] : DecidableEq (Except ε α) := fun a b =>
  match a, b with
  | .error e1, .error e2 =>
    if h : e1 = e2 then isTrue (by rw [h]) else isFalse (fun hc => h (Except.error.inj hc))
  | .error _, .ok _ => isFalse (fun hc => Except.noConfusion hc)
  | .ok _, .error _ => isFalse (fun hc => Except.noConfusion hc)
  | .ok a1, .ok a2 =>
    if h : a1 = a2 then isTrue (by rw [h]) else isFalse (fun hc => h (Except.ok.inj hc))

/-! ## The claims -/

/-- C6: a descriptor path that ends in an ignore-list suffix is never parsed
and never contributes to the aggregate mapping or the rendered output,
regardless of the file's contents: the step leaves the state untouched for
every value of `e.pom` (`e` is arbitrary, so in particular for a parse
error), and the whole run's output is the same with or without the entry. -/
theorem ignored_path_never_parsed (st : WalkState) (e : WalkEntry)
    (exec : templateData → ExecResult) (l1 l2 : List WalkEntry)
    (hfs : e.fsErr = none) (hign : onIgnoreList e.path = true) :
    walkStep st e = .ok st ∧ mainRun exec (l1 ++ e :: l2) = mainRun exec (l1 ++ l2) := by
  have hstep : ∀ t : WalkState, walkStep t e = .ok t := by
    intro t
    by_cases hsuf : List.isSuffixOf (str "/pom.xml") e.path
    · simp [walkStep, hfs, hsuf, hign]
    · simp [walkStep, hfs, hsuf]
  refine ⟨hstep st, mainRun_congr exec ?_⟩
  rw [walkPoms, walkPoms, walkFrom_append, walkFrom_append]
  cases hpre : walkFrom ⟨[], []⟩ l1 with
  | error m => exact rfl
  | ok t =>
    show sameOutcome (walkFrom t (e :: l2)) (walkFrom t l2)
    rw [walkFrom, hstep t]
    exact walkFrom_congr rfl l2

/-- Closed check for `ignored_path_never_parsed`: an ignored descriptor whose
contents are malformed (a parse error) still changes nothing. -/
theorem ignored_path_never_parsed_check :
    walkStep ⟨[], []⟩ ⟨str "grammars-v4/objc/pom.xml", none, .err (str "malformed")⟩
        = .ok ⟨[], []⟩ ∧
      mainRun execMakefileTemplate
          ([] ++ ⟨str "grammars-v4/objc/pom.xml", none, .err (str "malformed")⟩ :: [])
        = mainRun execMakefileTemplate ([] ++ []) :=
  ignored_path_never_parsed ⟨[], []⟩
    ⟨str "grammars-v4/objc/pom.xml", none, .err (str "malformed")⟩
    execMakefileTemplate [] [] (by decide) (by decide)

/-- C10: only paths ending in `/pom.xml` are ever considered: any other
visited path is passed over without parsing (the step leaves the state
untouched for every value of `e.pom`) and without any effect on the
aggregate mapping or the run's output. -/
theorem non_pom_paths_ignored (st : WalkState) (e : WalkEntry)
    (exec : templateData → ExecResult) (l1 l2 : List WalkEntry)
    (hfs : e.fsErr = none)
    (hsuf : List.isSuffixOf (str "/pom.xml") e.path = false) :
    walkStep st e = .ok st ∧ mainRun exec (l1 ++ e :: l2) = mainRun exec (l1 ++ l2) := by
  have hstep : ∀ t : WalkState, walkStep t e = .ok t := fun t => by
    simp [walkStep, hfs, hsuf]
  refine ⟨hstep st, mainRun_congr exec ?_⟩
  rw [walkPoms, walkPoms, walkFrom_append, walkFrom_append]
  cases hpre : walkFrom ⟨[], []⟩ l1 with
  | error m => exact rfl
  | ok t =>
    show sameOutcome (walkFrom t (e :: l2)) (walkFrom t l2)
    rw [walkFrom, hstep t]
    exact walkFrom_congr rfl l2

/-- Closed check for `non_pom_paths_ignored`: a grammar source file is not a
descriptor; even a parse error attached to it changes nothing. -/
theorem non_pom_paths_ignored_check :
    walkStep ⟨[], []⟩ ⟨str "grammars-v4/abb/abb.g4", none, .err (str "malformed")⟩
        = .ok ⟨[], []⟩ ∧
      mainRun execMakefileTemplate
          ([] ++ ⟨str "grammars-v4/abb/abb.g4", none, .err (str "malformed")⟩ :: [])
        = mainRun execMakefileTemplate ([] ++ []) :=
  non_pom_paths_ignored ⟨[], []⟩
    ⟨str "grammars-v4/abb/abb.g4", none, .err (str "malformed")⟩
    execMakefileTemplate [] [] (by decide) (by decide)

/-- C7: the first parse error aborts the whole run immediately with a fatal
error: whatever follows the failing descriptor (`l2` is arbitrary) is never
processed, and no output file is produced (`makefile = none`: the
destination is never created). -/
theorem first_parse_error_aborts_run (exec : templateData → ExecResult)
    (l1 l2 : List WalkEntry) (e : WalkEntry) (st : WalkState) (msg : Str)
    (hfs : e.fsErr = none)
    (hsuf : List.isSuffixOf (str "/pom.xml") e.path = true)
    (hign : onIgnoreList e.path = false) (hpom : e.pom = .err msg)
    (hpre : walkFrom ⟨[], []⟩ l1 = .ok st) :
    walkPoms (l1 ++ e :: l2) = .error msg ∧
      mainRun exec (l1 ++ e :: l2)
        = { fatal := some (str "failed to walk: " ++ msg), makefile := none } := by
  have hstep : walkStep st e = .error msg := by simp [walkStep, hfs, hsuf, hign, hpom]
  have hw : walkPoms (l1 ++ e :: l2) = .error msg := by
    rw [walkPoms, walkFrom_append, hpre]
    show walkFrom st (e :: l2) = .error msg
    rw [walkFrom, hstep]
  exact ⟨hw, by rw [mainRun, hw]⟩

/-- Closed check for `first_parse_error_aborts_run`: a malformed descriptor
aborts even though a well-formed descriptor follows it. -/
theorem first_parse_error_aborts_run_check :
    walkPoms ([] ++ ⟨str "grammars-v4/bad/pom.xml", none, .err (str "malformed")⟩
        :: [⟨str "grammars-v4/abb/pom.xml", none,
          .ok ⟨str "abb", [str "abb.g4"], true, str "abb",
            [str "abb_lexer.go", str "abb_parser.go"]⟩⟩])
      = .error (str "malformed") ∧
    mainRun execMakefileTemplate
        ([] ++ ⟨str "grammars-v4/bad/pom.xml", none, .err (str "malformed")⟩
          :: [⟨str "grammars-v4/abb/pom.xml", none,
            .ok ⟨str "abb", [str "abb.g4"], true, str "abb",
              [str "abb_lexer.go", str "abb_parser.go"]⟩⟩])
      = { fatal := some (str "failed to walk: " ++ str "malformed"), makefile := none } :=
  first_parse_error_aborts_run execMakefileTemplate []
    [⟨str "grammars-v4/abb/pom.xml", none,
      .ok ⟨str "abb", [str "abb.g4"], true, str "abb",
        [str "abb_lexer.go", str "abb_parser.go"]⟩⟩]
    ⟨str "grammars-v4/bad/pom.xml", none, .err (str "malformed")⟩ ⟨[], []⟩
    (str "malformed")
    (by decide) (by decide) (by decide) (by decide) (by decide)

/-- C8, counterexample: the claim asserts an informational log message for
every successfully parsed descriptor with an empty includes list, but the
plugin check (`if !p.FoundAntlr4MavenPlugin { return nil }`) runs before
the includes check, so a parsed descriptor with no includes and no plugin
is skipped with no log at all: the step is the exact identity (logs
included), not the logged skip the claim requires. -/
theorem empty_includes_without_plugin_not_logged :
    walkStep ⟨[], []⟩ ⟨str "grammars-v4/quiet/pom.xml", none,
        .ok ⟨str "quiet", [], false, str "quiet", []⟩⟩
      = .ok ⟨[], []⟩ ∧
    (.ok ⟨[], []⟩ : Except Str WalkState)
      ≠ .ok ⟨[], [skipNoGrammarsMsg (str "grammars-v4/quiet/pom.xml")]⟩ := by
  decide

/-- C8, amended: a successfully parsed descriptor whose code-generation
plugin is configured and whose includes list is empty is logged
(`skipNoGrammarsMsg` is appended to the log) and skipped non-fatally: the
`projects` map is untouched and the whole run's output is the same with or
without the entry.  (Without the plugin the descriptor is skipped all the
same — silently, before the includes check; see the counterexample.) -/
theorem empty_includes_logged_and_skipped (st : WalkState) (e : WalkEntry) (p : Project)
    (exec : templateData → ExecResult) (l1 l2 : List WalkEntry)
    (hfs : e.fsErr = none)
    (hsuf : List.isSuffixOf (str "/pom.xml") e.path = true)
    (hign : onIgnoreList e.path = false) (hpom : e.pom = .ok p)
    (hplug : p.FoundAntlr4MavenPlugin = true) (hinc : p.Includes = []) :
    walkStep st e = .ok ⟨st.projects, st.logs ++ [skipNoGrammarsMsg e.path]⟩ ∧
      mainRun exec (l1 ++ e :: l2) = mainRun exec (l1 ++ l2) := by
  have hstep : ∀ t : WalkState,
      walkStep t e = .ok ⟨t.projects, t.logs ++ [skipNoGrammarsMsg e.path]⟩ := by
    intro t
    simp [walkStep, hfs, hsuf, hign, hpom, hplug, hinc]
  refine ⟨hstep st, mainRun_congr exec ?_⟩
  rw [walkPoms, walkPoms, walkFrom_append, walkFrom_append]
  cases hpre : walkFrom ⟨[], []⟩ l1 with
  | error m => exact rfl
  | ok t =>
    show sameOutcome (walkFrom t (e :: l2)) (walkFrom t l2)
    rw [walkFrom, hstep t]
    exact walkFrom_congr
      (show (⟨t.projects, t.logs ++ [skipNoGrammarsMsg e.path]⟩ : WalkState).projects
          = t.projects from rfl) l2

/-- Closed check for `empty_includes_logged_and_skipped`. -/
theorem empty_includes_logged_and_skipped_check :
    walkStep ⟨[], []⟩ ⟨str "grammars-v4/empty/pom.xml", none,
        .ok ⟨str "empty", [], true, str "empty", []⟩⟩
      = .ok ⟨[], [] ++ [skipNoGrammarsMsg (str "grammars-v4/empty/pom.xml")]⟩ ∧
    mainRun execMakefileTemplate
        ([] ++ ⟨str "grammars-v4/empty/pom.xml", none,
          .ok ⟨str "empty", [], true, str "empty", []⟩⟩ :: [])
      = mainRun execMakefileTemplate ([] ++ []) :=
  empty_includes_logged_and_skipped ⟨[], []⟩
    ⟨str "grammars-v4/empty/pom.xml", none,
      .ok ⟨str "empty", [], true, str "empty", []⟩⟩
    ⟨str "empty", [], true, str "empty", []⟩
    execMakefileTemplate [] []
    (by decide) (by decide) (by decide) (by decide) (by decide) (by decide)

theorem mainRun_ok {entries : List WalkEntry} {st : WalkState}
    (exec : templateData → ExecResult) (h : walkPoms entries = .ok st) :
    mainRun exec entries = postWalk exec st.projects := by
  simp only [mainRun, h]

theorem postWalk_error {m : List (Str × Project)} {msg : Str}
    (exec : templateData → ExecResult) (h : buildGeneratedFiles m = .error msg) :
    postWalk exec m = { fatal := some msg, makefile := none } := by
  simp only [postWalk, h]

theorem postWalk_ok_exec {m : List (Str × Project)} {g : List (Str × List Str)}
    (exec : templateData → ExecResult) (hbg : buildGeneratedFiles m = .ok g) :
    postWalk exec m =
      (match exec ⟨sortStrings (m.map Prod.fst), m, g⟩ with
        | .ok text => { fatal := none, makefile := some text }
        | .fail written msg =>
          { fatal := some (str "failed to generate Makefile: " ++ msg),
            makefile := some written }) := by
  simp only [postWalk, hbg]

theorem entryAborts_false_of_retained {e : WalkEntry} {kv : Str × Project}
    (h : retainedKV e = some kv) : entryAborts e = false := by
  cases hfs : e.fsErr with
  | some m => simp [retainedKV, hfs] at h
  | none =>
    by_cases hsuf : List.isSuffixOf (str "/pom.xml") e.path
    · by_cases hign : onIgnoreList e.path
      · simp [retainedKV, hfs, hsuf, hign] at h
      · cases hpom : e.pom with
        | err m => simp [retainedKV, hfs, hsuf, hign, hpom] at h
        | ok p => simp [entryAborts, hfs, hpom]
    · simp [retainedKV, hfs, hsuf] at h

/-- C1: a descriptor that parses, has at least one include, has the plugin
configured, is not ignored, and whose derived name collides with no other
retained descriptor, ends up in the aggregate mapping exactly once, keyed by
its derived package name (`lookup` finds it and the key occurs once). -/
theorem aggregate_contains_retained_once (entries : List WalkEntry) (st : WalkState)
    (e : WalkEntry) (p : Project)
    (hw : walkPoms entries = .ok st) (hmem : e ∈ entries)
    (hfs : e.fsErr = none)
    (hsuf : List.isSuffixOf (str "/pom.xml") e.path = true)
    (hign : onIgnoreList e.path = false) (hpom : e.pom = .ok p)
    (hplug : p.FoundAntlr4MavenPlugin = true) (hinc : p.Includes ≠ [])
    (hnocol : ∀ e' ∈ entries, ∀ kv ∈ (retainedKV e').toList,
      kv.1 = p.PackageName → kv.2 = p) :
    st.projects.lookup p.PackageName = some p ∧
      (st.projects.map Prod.fst).count p.PackageName = 1 := by
  have hIE : p.Includes.isEmpty = false := by
    cases hI : p.Includes with
    | nil => exact absurd hI hinc
    | cons a l => rfl
  have hre : retainedKV e = some (p.PackageName, p) := by
    simp [retainedKV, hfs, hsuf, hign, hpom, hplug, hIE]
  have hproj : st.projects = buildMap [] (entries.filterMap retainedKV) :=
    walkFrom_ok_projects hw
  have hmemL : (p.PackageName, p) ∈ entries.filterMap retainedKV :=
    List.mem_filterMap.mpr ⟨e, hmem, hre⟩
  have hall : ∀ kv ∈ entries.filterMap retainedKV,
      kv.1 = p.PackageName → kv = (p.PackageName, p) := by
    intro kv hkv hk
    rcases List.mem_filterMap.mp hkv with ⟨e', he', hr'⟩
    have h2 := hnocol e' he' kv (Option.mem_toList.mpr (Option.mem_def.mpr hr')) hk
    calc kv = (kv.1, kv.2) := rfl
      _ = (p.PackageName, p) := by rw [hk, h2]
  rcases exists_last_key (List.mem_map_of_mem Prod.fst hmemL) with ⟨a, q, b, hL, hb⟩
  have hq : q = p := by
    have hmemq : (p.PackageName, q) ∈ entries.filterMap retainedKV := by
      rw [hL]
      exact List.mem_append.mpr (Or.inr (List.mem_cons_self _ _))
    exact congrArg Prod.snd (hall _ hmemq rfl)
  rw [hq] at hL
  have hlook : st.projects.lookup p.PackageName = some p := by
    rw [hproj, hL]
    exact buildMap_lookup_last hb [] a
  refine ⟨hlook, ?_⟩
  have hcnt := List.count_eq_one_of_mem (walkPoms_keys_nodup hw)
    (List.mem_map_of_mem Prod.fst (lookup_mem hlook))
  rw [← hcnt]
  show List.countP (fun x => x == p.PackageName) (st.projects.map Prod.fst)
      = List.countP (fun x => decide (x = p.PackageName)) (st.projects.map Prod.fst)
  refine List.countP_congr ?_
  intro x _
  by_cases hx : x = p.PackageName <;> simp [hx]

/-- Closed check for `aggregate_contains_retained_once`. -/
theorem aggregate_contains_retained_once_check :
    (List.lookup (str "abb")
        (WalkState.projects ⟨[(str "abb",
          ⟨str "abb", [str "abb.g4"], true, str "abb",
            [str "abb_lexer.go", str "abb_parser.go"]⟩)], []⟩))
      = some ⟨str "abb", [str "abb.g4"], true, str "abb",
          [str "abb_lexer.go", str "abb_parser.go"]⟩ ∧
    ((WalkState.projects ⟨[(str "abb",
        ⟨str "abb", [str "abb.g4"], true, str "abb",
          [str "abb_lexer.go", str "abb_parser.go"]⟩)], []⟩).map Prod.fst).count (str "abb")
      = 1 :=
  aggregate_contains_retained_once
    [⟨str "grammars-v4/abb/pom.xml", none,
      .ok ⟨str "abb", [str "abb.g4"], true, str "abb",
        [str "abb_lexer.go", str "abb_parser.go"]⟩⟩]
    ⟨[(str "abb",
      ⟨str "abb", [str "abb.g4"], true, str "abb",
        [str "abb_lexer.go", str "abb_parser.go"]⟩)], []⟩
    ⟨str "grammars-v4/abb/pom.xml", none,
      .ok ⟨str "abb", [str "abb.g4"], true, str "abb",
        [str "abb_lexer.go", str "abb_parser.go"]⟩⟩
    ⟨str "abb", [str "abb.g4"], true, str "abb",
      [str "abb_lexer.go", str "abb_parser.go"]⟩
    (by decide) (by decide) (by decide) (by decide) (by decide) (by decide)
    (by decide) (by decide) (by decide)

/-- C4: when two retained descriptors derive the same package name, the
later-parsed one silently replaces the earlier one: the walk still succeeds
(no error is raised for the collision) and the map's binding for the shared
name is the later project. -/
theorem duplicate_name_silently_overwritten (l1 l2 l3 : List WalkEntry)
    (e1 e2 : WalkEntry) (p1 p2 : Project)
    (hnoab : ∀ e' ∈ l1 ++ l2 ++ l3, entryAborts e' = false)
    (hfs1 : e1.fsErr = none)
    (hsuf1 : List.isSuffixOf (str "/pom.xml") e1.path = true)
    (hign1 : onIgnoreList e1.path = false) (hpom1 : e1.pom = .ok p1)
    (hplug1 : p1.FoundAntlr4MavenPlugin = true) (hinc1 : p1.Includes ≠ [])
    (hfs2 : e2.fsErr = none)
    (hsuf2 : List.isSuffixOf (str "/pom.xml") e2.path = true)
    (hign2 : onIgnoreList e2.path = false) (hpom2 : e2.pom = .ok p2)
    (hplug2 : p2.FoundAntlr4MavenPlugin = true) (hinc2 : p2.Includes ≠ [])
    (hname : p2.PackageName = p1.PackageName)
    (hlate : ∀ e' ∈ l3, ∀ kv ∈ (retainedKV e').toList, kv.1 ≠ p1.PackageName) :
    ∃ st, walkPoms (l1 ++ e1 :: l2 ++ e2 :: l3) = .ok st ∧
      st.projects.lookup p1.PackageName = some p2 := by
  have hIE1 : p1.Includes.isEmpty = false := by
    cases hI : p1.Includes with
    | nil => exact absurd hI hinc1
    | cons a l => rfl
  have hIE2 : p2.Includes.isEmpty = false := by
    cases hI : p2.Includes with
    | nil => exact absurd hI hinc2
    | cons a l => rfl
  have hre1 : retainedKV e1 = some (p1.PackageName, p1) := by
    simp [retainedKV, hfs1, hsuf1, hign1, hpom1, hplug1, hIE1]
  have hre2 : retainedKV e2 = some (p2.PackageName, p2) := by
    simp [retainedKV, hfs2, hsuf2, hign2, hpom2, hplug2, hIE2]
  have hnoabFull : ∀ e' ∈ l1 ++ e1 :: l2 ++ e2 :: l3, entryAborts e' = false := by
    intro e' he'
    rcases List.mem_append.mp he' with h1 | h1
    · rcases List.mem_append.mp h1 with h2 | h2
      · exact hnoab e' (List.mem_append.mpr (Or.inl (List.mem_append.mpr (Or.inl h2))))
      · rcases List.mem_cons.mp h2 with he1 | h3
        · exact he1 ▸ entryAborts_false_of_retained hre1
        · exact hnoab e' (List.mem_append.mpr (Or.inl (List.mem_append.mpr (Or.inr h3))))
    · rcases List.mem_cons.mp h1 with he2 | h4
      · exact he2 ▸ entryAborts_false_of_retained hre2
      · exact hnoab e' (List.mem_append.mpr (Or.inr h4))
  rcases walkFrom_ok_of_no_aborts hnoabFull ⟨[], []⟩ with ⟨st, hst⟩
  refine ⟨st, hst, ?_⟩
  have hL : (l1 ++ e1 :: l2 ++ e2 :: l3).filterMap retainedKV
      = (l1 ++ e1 :: l2).filterMap retainedKV
        ++ (p1.PackageName, p2) :: l3.filterMap retainedKV := by
    rw [List.filterMap_append, List.filterMap_cons, hre2, hname]
  have hb : ∀ kv ∈ l3.filterMap retainedKV, kv.1 ≠ p1.PackageName := by
    intro kv hkv
    rcases List.mem_filterMap.mp hkv with ⟨e', he', hr'⟩
    exact hlate e' he' kv (Option.mem_toList.mpr (Option.mem_def.mpr hr'))
  rw [walkFrom_ok_projects hst, hL]
  exact buildMap_lookup_last hb [] _

/-- Closed check for `duplicate_name_silently_overwritten`: two descriptors
both derive the name `abb`; the run succeeds and keeps the second project
(with different includes). -/
theorem duplicate_name_silently_overwritten_check :
    ∃ st, walkPoms ([] ++ ⟨str "grammars-v4/abb/pom.xml", none,
        .ok ⟨str "abb", [str "abb.g4"], true, str "abb",
          [str "abb_lexer.go", str "abb_parser.go"]⟩⟩
      :: [] ++ ⟨str "grammars-v4/other/abb/pom.xml", none,
        .ok ⟨str "abb", [str "other.g4"], true, str "other",
          [str "other_lexer.go", str "other_parser.go"]⟩⟩ :: []) = .ok st ∧
      st.projects.lookup (Project.PackageName ⟨str "abb", [str "abb.g4"], true, str "abb",
          [str "abb_lexer.go", str "abb_parser.go"]⟩)
        = some ⟨str "abb", [str "other.g4"], true, str "other",
            [str "other_lexer.go", str "other_parser.go"]⟩ :=
  duplicate_name_silently_overwritten [] [] []
    ⟨str "grammars-v4/abb/pom.xml", none,
      .ok ⟨str "abb", [str "abb.g4"], true, str "abb",
        [str "abb_lexer.go", str "abb_parser.go"]⟩⟩
    ⟨str "grammars-v4/other/abb/pom.xml", none,
      .ok ⟨str "abb", [str "other.g4"], true, str "other",
        [str "other_lexer.go", str "other_parser.go"]⟩⟩
    ⟨str "abb", [str "abb.g4"], true, str "abb",
      [str "abb_lexer.go", str "abb_parser.go"]⟩
    ⟨str "abb", [str "other.g4"], true, str "other",
      [str "other_lexer.go", str "other_parser.go"]⟩
    (by decide) (by decide) (by decide) (by decide) (by decide) (by decide)
    (by decide) (by decide) (by decide) (by decide) (by decide) (by decide)
    (by decide) (by decide) (by decide)

/-- C2: if any retained project derives fewer than two generated files, the
run aborts fatally, its `log.Fatalf` message naming the offending project,
before any rendering or writing happens: the conclusion holds for every
template-execution behaviour `exec` (the renderer is never consulted) and
`makefile = none` (the destination file is never created). -/
theorem too_few_generated_aborts_before_render (exec : templateData → ExecResult)
    (entries : List WalkEntry) (st : WalkState) (n0 : Str) (p0 : Project)
    (hw : walkPoms entries = .ok st)
    (hmem : (n0, p0) ∈ st.projects)
    (hlen : (generatedFor n0 p0).length < 2) :
    ∃ nm pm, (nm, pm) ∈ st.projects ∧ (generatedFor nm pm).length < 2 ∧
      mainRun exec entries
        = { fatal := some (expectTwoMsg (generatedFor nm pm) nm), makefile := none } := by
  rcases buildGenFrom_error_of_mem ⟨(n0, p0), hmem, hlen⟩ with ⟨kv, hkv, hklen, hall⟩
  refine ⟨kv.1, kv.2, hkv, hklen, ?_⟩
  rw [mainRun_ok exec hw]
  exact postWalk_error exec (hall [])

/-- Closed check for `too_few_generated_aborts_before_render`: a project with
a single generated file is fatal, and the `failingExec`-style renderer is
never reached (the conclusion is instantiated at an execution behaviour that
could never produce it). -/
theorem too_few_generated_aborts_before_render_check :
    ∃ nm pm, (nm, pm) ∈ (WalkState.projects ⟨[(str "solo",
        ⟨str "solo", [str "solo.g4"], true, str "solo", [str "solo_lexer.go"]⟩)], []⟩) ∧
      (generatedFor nm pm).length < 2 ∧
      mainRun execMakefileTemplate
          [⟨str "grammars-v4/solo/pom.xml", none,
            .ok ⟨str "solo", [str "solo.g4"], true, str "solo", [str "solo_lexer.go"]⟩⟩]
        = { fatal := some (expectTwoMsg (generatedFor nm pm) nm), makefile := none } :=
  too_few_generated_aborts_before_render execMakefileTemplate
    [⟨str "grammars-v4/solo/pom.xml", none,
      .ok ⟨str "solo", [str "solo.g4"], true, str "solo", [str "solo_lexer.go"]⟩⟩]
    ⟨[(str "solo", ⟨str "solo", [str "solo.g4"], true, str "solo", [str "solo_lexer.go"]⟩)], []⟩
    (str "solo")
    ⟨str "solo", [str "solo.g4"], true, str "solo", [str "solo_lexer.go"]⟩
    (by decide) (by decide) (by decide)

/-- C9: on the success path of the generated-files loop, the
`generatedFiles` map has exactly the keys of the `projects` map, and each
project's list is its derived filename list prefixed with the project name
and `/`, in order. -/
theorem generated_files_mirror_projects (entries : List WalkEntry) (st : WalkState)
    (g : List (Str × List Str))
    (hw : walkPoms entries = .ok st)
    (hbg : buildGeneratedFiles st.projects = .ok g) :
    g.map Prod.fst = st.projects.map Prod.fst ∧
      ∀ n p, (n, p) ∈ st.projects → g.lookup n = some (generatedFor n p) := by
  have hok : ∀ kv ∈ st.projects, ¬(generatedFor kv.1 kv.2).length < 2 := by
    intro kv hmem hlen
    rcases buildGenFrom_error_of_mem ⟨kv, hmem, hlen⟩ with ⟨_, _, _, hall⟩
    rw [buildGeneratedFiles, hall []] at hbg
    cases hbg
  have hg : g = st.projects.map (fun kv => (kv.1, generatedFor kv.1 kv.2)) := by
    rw [buildGeneratedFiles, buildGenFrom_ok hok] at hbg
    cases hbg
    simp
  constructor
  · rw [hg, List.map_map]
    rfl
  · intro n p hmem
    rw [hg]
    have hnd : ((st.projects.map (fun kv => (kv.1, generatedFor kv.1 kv.2))).map
        Prod.fst).Nodup := by
      rw [List.map_map]
      exact walkPoms_keys_nodup hw
    exact lookup_of_nodupKeys_mem hnd (List.mem_map_of_mem _ hmem)

/-- Closed check for `generated_files_mirror_projects`. -/
theorem generated_files_mirror_projects_check :
    ([(str "abb", [str "abb" ++ str "/" ++ str "abb_lexer.go",
        str "abb" ++ str "/" ++ str "abb_parser.go"])].map Prod.fst
      = (WalkState.projects ⟨[(str "abb",
          ⟨str "abb", [str "abb.g4"], true, str "abb",
            [str "abb_lexer.go", str "abb_parser.go"]⟩)], []⟩).map Prod.fst) ∧
    ∀ n p, (n, p) ∈ (WalkState.projects ⟨[(str "abb",
        ⟨str "abb", [str "abb.g4"], true, str "abb",
          [str "abb_lexer.go", str "abb_parser.go"]⟩)], []⟩) →
      List.lookup n [(str "abb", [str "abb" ++ str "/" ++ str "abb_lexer.go",
          str "abb" ++ str "/" ++ str "abb_parser.go"])]
        = some (generatedFor n p) :=
  generated_files_mirror_projects
    [⟨str "grammars-v4/abb/pom.xml", none,
      .ok ⟨str "abb", [str "abb.g4"], true, str "abb",
        [str "abb_lexer.go", str "abb_parser.go"]⟩⟩]
    ⟨[(str "abb", ⟨str "abb", [str "abb.g4"], true, str "abb",
      [str "abb_lexer.go", str "abb_parser.go"]⟩)], []⟩
    [(str "abb", [str "abb" ++ str "/" ++ str "abb_lexer.go",
      str "abb" ++ str "/" ++ str "abb_parser.go"])]
    (by decide) (by decide)

/-- C3: determinism of the rendered output.  The only nondeterminism between
two runs on an unchanged input is Go's map iteration order, modelled by the
listing order of the aggregated `projects` map: for every reordering `m2` of
it, the run's output file is byte-identical (`makefile` agrees even when the
run aborts), and the project names are sorted lexicographically before
rendering. -/
theorem render_deterministic_and_sorted (entries : List WalkEntry) (st : WalkState)
    (m2 : List (Str × Project))
    (hw : walkPoms entries = .ok st) (hp : st.projects.Perm m2) :
    (mainRun execMakefileTemplate entries).makefile
        = (postWalk execMakefileTemplate m2).makefile ∧
      List.Sorted LexLe (sortStrings (st.projects.map Prod.fst)) := by
  rw [mainRun_ok execMakefileTemplate hw]
  exact ⟨postWalk_makefile_eq_of_perm hp (walkPoms_keys_nodup hw), sortStrings_sorted _⟩

/-- Closed check for `render_deterministic_and_sorted`: two projects, listed
in the two possible map orders, render to the same bytes. -/
theorem render_deterministic_and_sorted_check :
    (mainRun execMakefileTemplate
        [⟨str "grammars-v4/abb/pom.xml", none,
          .ok ⟨str "abb", [str "abb.g4"], true, str "abb",
            [str "abb_lexer.go", str "abb_parser.go"]⟩⟩,
         ⟨str "grammars-v4/zil/pom.xml", none,
          .ok ⟨str "zil", [str "zil.g4"], true, str "zil",
            [str "zil_lexer.go", str "zil_parser.go"]⟩⟩]).makefile
      = (postWalk execMakefileTemplate
          [(str "zil", ⟨str "zil", [str "zil.g4"], true, str "zil",
            [str "zil_lexer.go", str "zil_parser.go"]⟩),
           (str "abb", ⟨str "abb", [str "abb.g4"], true, str "abb",
            [str "abb_lexer.go", str "abb_parser.go"]⟩)]).makefile ∧
    List.Sorted LexLe (sortStrings ((WalkState.projects
      ⟨[(str "abb", ⟨str "abb", [str "abb.g4"], true, str "abb",
          [str "abb_lexer.go", str "abb_parser.go"]⟩),
        (str "zil", ⟨str "zil", [str "zil.g4"], true, str "zil",
          [str "zil_lexer.go", str "zil_parser.go"]⟩)], []⟩).map Prod.fst)) :=
  render_deterministic_and_sorted
    [⟨str "grammars-v4/abb/pom.xml", none,
      .ok ⟨str "abb", [str "abb.g4"], true, str "abb",
        [str "abb_lexer.go", str "abb_parser.go"]⟩⟩,
     ⟨str "grammars-v4/zil/pom.xml", none,
      .ok ⟨str "zil", [str "zil.g4"], true, str "zil",
        [str "zil_lexer.go", str "zil_parser.go"]⟩⟩]
    ⟨[(str "abb", ⟨str "abb", [str "abb.g4"], true, str "abb",
        [str "abb_lexer.go", str "abb_parser.go"]⟩),
      (str "zil", ⟨str "zil", [str "zil.g4"], true, str "zil",
        [str "zil_lexer.go", str "zil_parser.go"]⟩)], []⟩
    [(str "zil", ⟨str "zil", [str "zil.g4"], true, str "zil",
        [str "zil_lexer.go", str "zil_parser.go"]⟩),
     (str "abb", ⟨str "abb", [str "abb.g4"], true, str "abb",
        [str "abb_lexer.go", str "abb_parser.go"]⟩)]
    (by decide) (by decide)

/-- An execution behaviour of the template engine that fails after writing a
prefix of the output: `text/template` writes to its writer as it executes,
so this is what a mid-execution failure looks like to the destination
file. -/
def failingExec : templateData → ExecResult :=
  fun _ => .fail (str "# Copyright 2017 Google Inc.") (str "boom")

/-- C5, counterexample: the claim says a template-substitution failure
aborts before any output is written, leaving no partially-written
destination file.  But `main` calls `os.Create("Makefile")` before
`makeTemplate.Execute(out, data)` and the template engine writes directly
into the file, so after a mid-execution failure the run is fatal, yet the
destination file exists and holds the partial output: here a non-empty
prefix. -/
theorem render_failure_partial_file_left :
    (mainRun failingExec
        [⟨str "grammars-v4/abb/pom.xml", none,
          .ok ⟨str "abb", [str "abb.g4"], true, str "abb",
            [str "abb_lexer.go", str "abb_parser.go"]⟩⟩]).fatal ≠ none ∧
      (mainRun failingExec
        [⟨str "grammars-v4/abb/pom.xml", none,
          .ok ⟨str "abb", [str "abb.g4"], true, str "abb",
            [str "abb_lexer.go", str "abb_parser.go"]⟩⟩]).makefile
        = some (str "# Copyright 2017 Google Inc.") ∧
      str "# Copyright 2017 Google Inc." ≠ ([] : Str) := by
  decide

/-- C5, amended: if template substitution fails during rendering, the run
aborts fatally (`log.Fatalf("failed to generate Makefile: ...")`) — but the
destination file has already been created, and it is left holding whatever
the engine wrote before failing. -/
theorem render_failure_fatal_with_partial_output (exec : templateData → ExecResult)
    (entries : List WalkEntry) (st : WalkState) (g : List (Str × List Str))
    (written msg : Str)
    (hw : walkPoms entries = .ok st)
    (hbg : buildGeneratedFiles st.projects = .ok g)
    (hexec : exec ⟨sortStrings (st.projects.map Prod.fst), st.projects, g⟩
      = .fail written msg) :
    mainRun exec entries
      = { fatal := some (str "failed to generate Makefile: " ++ msg),
          makefile := some written } := by
  rw [mainRun_ok exec hw, postWalk_ok_exec exec hbg, hexec]

/-- Closed check for `render_failure_fatal_with_partial_output`. -/
theorem render_failure_fatal_with_partial_output_check :
    mainRun failingExec
        [⟨str "grammars-v4/abb/pom.xml", none,
          .ok ⟨str "abb", [str "abb.g4"], true, str "abb",
            [str "abb_lexer.go", str "abb_parser.go"]⟩⟩]
      = { fatal := some (str "failed to generate Makefile: " ++ str "boom"),
          makefile := some (str "# Copyright 2017 Google Inc.") } :=
  render_failure_fatal_with_partial_output failingExec
    [⟨str "grammars-v4/abb/pom.xml", none,
      .ok ⟨str "abb", [str "abb.g4"], true, str "abb",
        [str "abb_lexer.go", str "abb_parser.go"]⟩⟩]
    ⟨[(str "abb", ⟨str "abb", [str "abb.g4"], true, str "abb",
        [str "abb_lexer.go", str "abb_parser.go"]⟩)], []⟩
    [(str "abb", generatedFor (str "abb")
        ⟨str "abb", [str "abb.g4"], true, str "abb",
          [str "abb_lexer.go", str "abb_parser.go"]⟩)]
    (str "# Copyright 2017 Google Inc.") (str "boom")
    (by decide) (by decide) (by decide)
